import Mathlib

/-!
Verification of the `adrmisty/morpho-syntax` pipeline (hw1): a shallow
embedding, in Lean 4, of `file.py`, `inflections.py` and `greek.py`.

Modelling conventions:
* Python strings are Lean `String`; all string operations are implemented
  by structural recursion on the underlying `List Char` so that concrete
  instances reduce with `decide` / `rfl`.
* Python dicts are association lists (`List (String × _)`) with
  first-match lookup and replace-in-place-or-append insertion, which
  matches Python dict key semantics for the operations the code uses.
* A Python function that can raise an exception is modelled with
  `Option` / `Except`: `none` / `.error` is a raised exception
  (`IndexError`, `ValueError`, `KeyError`).
* The `while` loop of `get_inflections` is modelled with explicit fuel:
  `none` means the loop has not reached its exit after that many
  iterations, so running out for every fuel is non-termination.
* `unicodedata.normalize('NFD', ·)` followed by dropping category-Mn
  characters and `str.lower()` is modelled character-wise over the
  repertoire the corpus uses (Greek and ASCII): each precomposed accented
  Greek letter decomposes to its base letter and a combining mark
  (U+0300–U+036F), which is dropped; the contextual final-sigma rule of
  `str.lower` is not modelled and no statement below depends on it.
-/

namespace MorphoSyntax

/-- Python `str.split(sep)` core: split a character list at every
occurrence of `sep`, keeping empty chunks (so `"".split(t) = [""]`). -/
def splitCharAux (sep : Char) : List Char → List Char → List (List Char)
  | [], acc => [acc.reverse]
  | c :: cs, acc =>
    if c = sep then acc.reverse :: splitCharAux sep cs []
    else splitCharAux sep cs (c :: acc)

/-- Python `s.split(sep)` (no maxsplit). -/
def pySplit (sep : Char) (s : String) : List String :=
  (splitCharAux sep s.data []).map (fun l => String.mk l)

/-- Python `str.split(sep, maxsplit)` core: perform at most `n` splits;
once the budget is spent the remainder is kept whole as the last chunk. -/
def splitCharAuxN (sep : Char) : Nat → List Char → List Char → List (List Char)
  | 0, rest, acc => [acc.reverse ++ rest]
  | _ + 1, [], acc => [acc.reverse]
  | n + 1, c :: cs, acc =>
    if c = sep then acc.reverse :: splitCharAuxN sep n cs []
    else splitCharAuxN sep (n + 1) cs (c :: acc)

/-- Python `s.split(sep, maxsplit)`. -/
def pySplitN (sep : Char) (maxsplit : Nat) (s : String) : List String :=
  (splitCharAuxN sep maxsplit s.data []).map (fun l => String.mk l)

/-- The whitespace characters removed by Python `str.strip()`
(the ASCII ones; the corpus contains no exotic Unicode whitespace). -/
def pyIsSpace (c : Char) : Bool :=
  c = ' ' || c = '\t' || c = '\n' || c = '\r' || c = '\x0b' || c = '\x0c'

/-- Python `s.strip()`. -/
def pyStrip (s : String) : String :=
  String.mk (((s.data.dropWhile pyIsSpace).reverse.dropWhile pyIsSpace).reverse)

/-- Python `s.startswith(pre)`. -/
def pyStartsWith (s pre : String) : Bool :=
  pre.data.isPrefixOf s.data

/-- Python `s.endswith(suf)`. -/
def pyEndsWith (s suf : String) : Bool :=
  suf.data.isSuffixOf s.data

/-- Python `sep.join(parts)`. -/
def pyJoin (sep : String) : List String → String
  | [] => ""
  | [x] => x
  | x :: xs => x ++ sep ++ pyJoin sep xs

/-- Python `re.search(r'\d', s)` as a Boolean: some character of `s` is a
digit (the corpus only contains ASCII digits). -/
def hasDigit (s : String) : Bool :=
  s.data.any (fun c => c.isDigit)

/-- Python `"+" in pos`: substring test for the one-character string. -/
def hasPlus (pos : String) : Bool :=
  pos.data.contains '+'

/-- Python `str.lower()` on one character, over the corpus repertoire:
ASCII capitals and Greek capitals (plain and precomposed accented). -/
def pyLowerChar (c : Char) : Char :=
  if 'A' ≤ c && c ≤ 'Z' then Char.ofNat (c.toNat + 32)
  else if 0x391 ≤ c.toNat && c.toNat ≤ 0x3A9 && c.toNat ≠ 0x3A2 then
    Char.ofNat (c.toNat + 32)
  else if c = 'Ά' then 'ά'
  else if c = 'Έ' then 'έ'
  else if c = 'Ή' then 'ή'
  else if c = 'Ί' then 'ί'
  else if c = 'Ό' then 'ό'
  else if c = 'Ύ' then 'ύ'
  else if c = 'Ώ' then 'ώ'
  else if c = 'Ϊ' then 'ϊ'
  else if c = 'Ϋ' then 'ϋ'
  else c

/-- Python `s.lower()` character-wise (the contextual final-sigma rule is
not modelled; no statement below depends on it). -/
def pyLower (s : String) : String :=
  String.mk (s.data.map pyLowerChar)

/-- NFD-decompose one character and drop its category-Mn combining marks:
each precomposed accented Greek letter maps to its base letter; a bare
combining mark (U+0300–U+036F) maps to nothing; all else is unchanged.
This is the character-wise content of
`[c for c in unicodedata.normalize('NFD', w) if category(c) != 'Mn']`
over the corpus repertoire. -/
def nfdStripMn (c : Char) : List Char :=
  if c = 'ά' then ['α']
  else if c = 'έ' then ['ε']
  else if c = 'ή' then ['η']
  else if c = 'ί' then ['ι']
  else if c = 'ό' then ['ο']
  else if c = 'ύ' then ['υ']
  else if c = 'ώ' then ['ω']
  else if c = 'ϊ' then ['ι']
  else if c = 'ϋ' then ['υ']
  else if c = 'ΐ' then ['ι']
  else if c = 'ΰ' then ['υ']
  else if c = 'Ά' then ['Α']
  else if c = 'Έ' then ['Ε']
  else if c = 'Ή' then ['Η']
  else if c = 'Ί' then ['Ι']
  else if c = 'Ό' then ['Ο']
  else if c = 'Ύ' then ['Υ']
  else if c = 'Ώ' then ['Ω']
  else if c = 'Ϊ' then ['Ι']
  else if c = 'Ϋ' then ['Υ']
  else if 0x300 ≤ c.toNat && c.toNat ≤ 0x36F then []
  else [c]

/-- `greek.remove_tonos`: NFD-decompose, drop combining marks, lowercase. -/
def remove_tonos (word : String) : String :=
  pyLower (String.mk (word.data.flatMap nfdStripMn))

/-- Character-wise longest common prefix of two character lists. -/
def lcp2 : List Char → List Char → List Char
  | a :: as, b :: bs => if a = b then a :: lcp2 as bs else []
  | _, _ => []

/-- `os.path.commonprefix`: the longest common prefix of a list of
strings (`""` for the empty list). -/
def commonPrefixAll : List String → String
  | [] => ""
  | s :: ss => String.mk (ss.foldl (fun acc t => lcp2 acc t.data) s.data)

/-- One value of the `inflections` dict of `inflections.py`: always a
`pos`, and optionally an `annotations` list (contraction entries) or an
`inflections` sub-dict mapping surface forms to annotation lists. -/
structure Entry where
  pos : String
  annotations : Option (List String) := none
  inflections : Option (List (String × List String)) := none
deriving DecidableEq, Repr

/-- The `inflections` dict: an association list with Python dict key
semantics. -/
abbrev Table := List (String × Entry)

/-- Python dict assignment `d[k] = v`: replace the value in place if the
key exists, otherwise append the new pair. -/
def dictInsert {α : Type} : List (String × α) → String → α → List (String × α)
  | [], k, v => [(k, v)]
  | (k', v') :: rest, k, v =>
    if k' = k then (k, v) :: rest else (k', v') :: dictInsert rest k v

/-- `inflections.INFLECTED` (corpus POS tags whose words inflect). -/
def INFLECTED : List String :=
  ["ADJ", "DET", "NOUN", "NUM", "PRON", "VERB", "PROPN", "ADV", "AUX"]

/-- `inflections.NOT_INFLECTED`. -/
def NOT_INFLECTED : List String := ["CCONJ", "PART", "SCONJ", "ADP"]

/-- `inflections.store_in`. The `lemma is None` guard of the source is
unreachable here because every caller passes a string field of a split
line, so `lemma` is modelled as `String`. The bare `except:` of the
source can only fire on the `KeyError` raised when the existing entry has
no `'inflections'` key, which is the `none` case of `entry.inflections`. -/
def store_in (tbl : Table) (word lemma_ pos ann : String) : Table :=
  let annotations := pySplit '|' ann
  match tbl.lookup lemma_ with
  | none =>
    if hasPlus pos then
      dictInsert tbl word { pos := pos, annotations := some annotations }
    else if pos ∈ INFLECTED then
      dictInsert tbl lemma_ { pos := pos, inflections := some [(word, annotations)] }
    else
      dictInsert tbl word { pos := pos }
  | some entry =>
    if pos ∈ INFLECTED then
      match entry.inflections with
      | some m =>
        dictInsert tbl lemma_ { entry with inflections := some (dictInsert m word annotations) }
      | none =>
        dictInsert tbl lemma_ { pos := pos, inflections := some [(word, annotations)] }
    else tbl

/-- The `for j in range(2)` loop of `inflections.update_contraction`,
with the iteration count as first argument. `none` models a raised
exception: `IndexError` when `lines[i+1]` is read out of range (the
source checks `i >= len(lines)` before incrementing `i`, so the check
never guards the read), and `ValueError` when a line splits into more
than 5 tab-fields (the source guards only `len(info) < 5` and then
unpacks exactly 5 values). -/
def ucLoop (lines : List String) : Nat → Nat → List String → List String →
    Option (List String × List String)
  | 0, _, poss, anns => some (poss, anns)
  | j + 1, i, poss, anns =>
    if i ≥ lines.length then some (poss, anns)
    else
      match lines.get? (i + 1) with
      | none => none
      | some raw =>
        let line := pyStrip raw
        if line = "" then ucLoop lines j (i + 1) poss anns
        else
          let info := pySplit '\t' line
          if info.length < 5 then ucLoop lines j (i + 1) poss anns
          else
            match info with
            | [_, _, next_pos, _, next_anns] =>
              ucLoop lines j (i + 1) (poss ++ [next_pos])
                (if next_anns ≠ "_" then anns ++ [next_anns] else anns)
            | _ => none

/-- `inflections.update_contraction`: combined POS joined with `+` and
combined non-`"_"` annotation strings joined with `|`, from up to the
next two lines. `none` models a raised exception. -/
def update_contraction (lines : List String) (i : Nat) : Option (String × String) :=
  (ucLoop lines 2 i [] []).map (fun pa => (pyJoin "+" pa.1, pyJoin "|" pa.2))

/-- `inflections.update`. Its caller passes a list of exactly 5 fields;
any other shape would be an unpack `ValueError`, modelled `none`. -/
def update (tbl : Table) (info : List String) (lines : List String) (i : Nat) :
    Option Table :=
  match info with
  | [word, lemma_, pos, _, ann] =>
    if lemma_ = "_" ∨ pos = "_" then
      match update_contraction lines i with
      | none => none
      | some pa => some (store_in tbl word lemma_ pa.1 pa.2)
    else some (store_in tbl word lemma_ pos ann)
  | _ => none

/-- The `while i < len(lines)` loop of `inflections.get_inflections`,
with explicit fuel. `none` means the loop has not exited after `fuel`
iterations; `some (.error ())` models an exception propagating out of
`update`; `some (.ok tbl)` is normal exit with the finished table. The
source body is reproduced exactly: when a line does not split into
exactly 5 tab-fields it executes `continue` WITHOUT incrementing `i`. -/
def getInflectionsRun (lines : List String) : Nat → Nat → Table →
    Option (Except Unit Table)
  | 0, _, _ => none
  | fuel + 1, i, tbl =>
    if h : i < lines.length then
      let tabs := pySplit '\t' (pyStrip (lines.get ⟨i, h⟩))
      if tabs.length ≠ 5 then getInflectionsRun lines fuel i tbl
      else
        match update tbl tabs lines i with
        | none => some (.error ())
        | some tbl' => getInflectionsRun lines fuel (i + 1) tbl'
    else some (.ok tbl)

/-- `greek.LEMMA_SUFFIXES`, in declaration order. -/
def LEMMA_SUFFIXES : List String :=
  ["αω", "εω", "αμαι", "ωμαι", "ομαι", "ος", "ης", "ας", "μα", "ιο", "α", "η", "ο", "ω"]

/-- `greek.VERB_CLASSES`, in declaration (dict insertion) order. -/
def VERB_CLASSES : List (String × List String) :=
  [("b1", ["άω", "έω"]),
   ("b2", ["ώ"]),
   ("a", ["ω"]),
   ("παθ", ["άμαι", "ώμαι", "ομαι", "ται"])]

/-- `greek.NOUN_CLASSES`, in declaration (dict insertion) order. -/
def NOUN_CLASSES : List (String × List String) :=
  [("masc-ος", ["ος"]),
   ("masc-ας", ["ας"]),
   ("masc-ης", ["ης", "ής"]),
   ("neut-μα", ["μα"]),
   ("neut-ι", ["ι", "ός"]),
   ("neut-ο", ["ο", "ό"]),
   ("fem-α", ["α"]),
   ("fem-η", ["η", "ή"])]

/-- `greek.ADJ_CLASSES`, in declaration (dict insertion) order. -/
def ADJ_CLASSES : List (String × List String) :=
  [("ός", ["ρός", "νός", "ακός", "ικός", "ός"]),
   ("ος", ["ινος", "ιος", "ος"]),
   ("ής", ["ής"]),
   ("ης", ["ης"]),
   ("ύς", ["ύς"])]

/-- `greek.CLASSES`. The `"PROPN"` binding is commented out in the
source, so a lookup for `"PROPN"` fails (`KeyError`). -/
def CLASSES : List (String × List (String × List String)) :=
  [("ADJ", ADJ_CLASSES),
   ("VERB", VERB_CLASSES),
   ("NOUN", NOUN_CLASSES),
   ("PRON", NOUN_CLASSES)]

/-- Python `re.sub(f"{suffix}$", "", s)` for the plain-text suffixes of
`LEMMA_SUFFIXES` (no regex metacharacters), applied under the guard
`s.endswith(suffix)`: drop the suffix from the end. -/
def stripEnd (s suf : String) : String :=
  String.mk (s.data.take (s.data.length - suf.data.length))

/-- `greek.get_stem`: common prefix of the normalized lemma and
normalized forms; if it is shorter than 4 characters or fewer than 2
forms are given, the first matching `LEMMA_SUFFIXES` entry is stripped
from the normalized lemma instead — and when none matches, `stem` keeps
the value it already had (the common prefix). -/
def get_stem (lemma_ : String) (words : List String) : String :=
  let lemma_tonos := remove_tonos lemma_
  let words_tonos := words.map remove_tonos
  let stem := commonPrefixAll (lemma_tonos :: words_tonos)
  if stem.length < 4 || words.length < 2 then
    match LEMMA_SUFFIXES.find? (fun suf => pyEndsWith lemma_tonos suf) with
    | some suf => stripEnd lemma_tonos suf
    | none => stem
  else stem

/-- The `for tag, endings in CLASSES[pos].items()` loop of
`greek.get_class`: first class whose ending list has a suffix of the
lemma wins. -/
def firstClassMatch (lemma_ : String) :
    List (String × List String) → Option String
  | [] => none
  | (tag, endings) :: rest =>
    if endings.any (fun e => pyEndsWith lemma_ e) then some tag
    else firstClassMatch lemma_ rest

/-- `greek.get_class`. `.error ()` models the `KeyError` raised by
`CLASSES[pos]` when `pos` is not a key (e.g. `"PROPN"`); `.ok none` is
Python's `None` (non-generalization) and `.ok (some "")` the empty-string
tag returned for an unmatched `VERB`. -/
def get_class (lemma_ pos : String) : Except Unit (Option String) :=
  match CLASSES.lookup pos with
  | none => .error ()
  | some classes =>
    match firstClassMatch lemma_ classes with
    | some tag => .ok (some tag)
    | none => if pos = "VERB" then .ok (some "") else .ok none

/-- `greek.analyze_inflections`: stem plus class tag; a `None` class tag
falls back to the raw lemma and the lowercased POS, otherwise the tag is
`pos.lower() + "-" + class_tag`. -/
def analyze_inflections (lemma_ : String) (words : List String) (pos : String) :
    Except Unit (String × String) :=
  match get_class lemma_ pos with
  | .error e => .error e
  | .ok none => .ok (lemma_, pyLower pos)
  | .ok (some tag) => .ok (get_stem lemma_ words, pyJoin "-" [pyLower pos, tag])

/-- `TO_STEM` of `greek.get_greek_lexicon`. -/
def TO_STEM : List String := ["ADJ", "NOUN", "VERB", "PRON", "PROPN"]

/-- The per-entry body of the `for lemma, info in dict.items()` loop of
`greek.get_greek_lexicon`: one `lemma \t stem \t class_tag` line. -/
def lexiconLine (lemma_ : String) (info : Entry) : Except Unit String :=
  let pos := info.pos
  let words := (info.inflections.getD []).map (fun p => p.1)
  if pos ∉ TO_STEM then
    .ok (lemma_ ++ "\t" ++ lemma_ ++ "\t" ++ pyLower pos)
  else
    match analyze_inflections lemma_ words pos with
    | .error e => .error e
    | .ok st => .ok (lemma_ ++ "\t" ++ st.1 ++ "\t" ++ st.2)

/-- `greek.get_greek_lexicon` up to I/O: the list of emitted lexicon
lines, in table order (`to_txt` then sorts and writes them, which does
not change which rows are emitted). An exception in any entry aborts the
whole call. -/
def get_greek_lexicon (tbl : Table) : Except Unit (List String) :=
  match tbl with
  | [] => .ok []
  | (lemma_, info) :: rest =>
    match lexiconLine lemma_ info with
    | .error e => .error e
    | .ok line =>
      match get_greek_lexicon rest with
      | .error e => .error e
      | .ok ls => .ok (line :: ls)

/-- `file.TO_IGNORE`. -/
def TO_IGNORE : List String := ["PUNCT", "Foreign=Yes", "SYM", "Abbr=Yes", "X"]

/-- The per-line body of the `for line in lines` loop of
`file.from_conllu`: `none` when the line contributes nothing to the
output text, `some s` when it appends the cleaned line `s`. The ignore
test is `any(n in TO_IGNORE for n in annotations)`: a whole tab-field
must EQUAL one of the markers (list membership, not substring search). -/
def includeLine (line : String) : Option String :=
  if pyStartsWith line "#" then none
  else
    match pySplitN '\t' 1 line with
    | [_, rest] =>
      let annotations := pySplit '\t' rest
      if annotations.any (fun n => n ∈ TO_IGNORE) || hasDigit (annotations.headD "") then
        none
      else
        let to_add := pySplitN '\t' 5 rest
        some (pyLower (to_add.headD "") ++ "\t" ++
              pyJoin "\t" ((to_add.drop 1).dropLast) ++ "\n")
    | _ => none

/-- `file.from_conllu` up to I/O: the list of cleaned lines written to
the output text file. -/
def from_conllu (lines : List String) : List String :=
  lines.filterMap includeLine

/-- Looking up the key just assigned by `dictInsert` yields the assigned
value. -/
theorem lookup_dictInsert_self {α : Type} (t : List (String × α)) (k : String) (v : α) :
    (dictInsert t k v).lookup k = some v := by
  induction t with
  | nil => simp [dictInsert, List.lookup]
  | cons p rest ih =>
    by_cases h : p.1 = k
    · simp [dictInsert, h, List.lookup]
    · have hb : (k == p.1) = false := beq_eq_false_iff_ne.mpr (Ne.symm h)
      simp only [dictInsert]
      rw [if_neg h]
      simp [List.lookup, hb, ih]

/-- C1: the claim says `get_inflections` terminates on every finite list
of corpus lines, silently skipping lines that do not split into exactly
5 tab-fields. The code instead loops forever on the first such line: the
`continue` is executed without incrementing `i`, so the loop state
repeats. On the one-line file `["malformed"]` (which splits into 1
tab-field, not 5) the loop never exits, for any amount of fuel and any
starting table. -/
theorem get_inflections_diverges_on_malformed_line :
    (pySplit '\t' (pyStrip "malformed")).length ≠ 5 ∧
    ∀ (fuel : Nat) (tbl : Table), getInflectionsRun ["malformed"] fuel 0 tbl = none := by
  refine ⟨by decide, fun fuel => ?_⟩
  induction fuel with
  | zero => intro tbl; rfl
  | succ n ih => intro tbl; exact ih tbl

/-- C2: the claim says every PROPN table entry yields a fallback lexicon
row `lemma \t lemma \t propn`. In the code `"PROPN"` is a key of
`TO_STEM` but not of `CLASSES` (its binding is commented out), so
`get_class` raises `KeyError` and `get_greek_lexicon` aborts on the first
PROPN entry instead of emitting any row. -/
theorem get_greek_lexicon_propn_raises_keyerror :
    "PROPN" ∈ TO_STEM ∧
    get_greek_lexicon
      [("Αθήνα", { pos := "PROPN", inflections := some [("Αθήνας", ["Case=Gen"])] })] =
      .error () := by
  exact ⟨by decide, rfl⟩

/-- C10: the claim says `update_contraction` returns normally for every
valid index, joining however many following lines exist. In the code the
`i >= len(lines)` guard runs before `i += 1`, so `lines[i+1]` is read
unguarded: at the last valid index (here `i = 0` in a one-line list) the
read is out of range and `IndexError` is raised (modelled `none`). -/
theorem update_contraction_indexerror_at_last_line :
    0 < (["στο\t_\t_\t_\t_"] : List String).length ∧
    update_contraction ["στο\t_\t_\t_\t_"] 0 = none := by
  exact ⟨by decide, rfl⟩

/-- Counterexample to C5 as stated: with the one-entry table
`{"λ": {pos: "ADV"}}`, storing surface form `"w"` of the already-present
lemma `"λ"` with the non-inflected POS `"ADP"` leaves the table unchanged
and creates no entry keyed `"w"`, contradicting "created or overwritten
regardless of whether the lemma was already a key". -/
theorem store_in_no_surface_entry_for_known_lemma :
    ("ADP" ∉ INFLECTED ∧ hasPlus "ADP" = false) ∧
    store_in [("λ", { pos := "ADV" })] "w" "λ" "ADP" "_" = [("λ", { pos := "ADV" })] ∧
    (store_in [("λ", { pos := "ADV" })] "w" "λ" "ADP" "_").lookup "w" = none := by
  exact ⟨by decide, rfl, rfl⟩

/-- C5 (amended): for a record whose POS is neither in `INFLECTED` nor
contains `+`, `store_in` creates/overwrites the entry keyed by the
surface form only when the lemma is NOT already a key of the table; when
the lemma is already a key, the call leaves the table unchanged. -/
theorem store_in_non_inflected_cases (tbl : Table) (word lemma_ pos ann : String)
    (hpos : pos ∉ INFLECTED) (hplus : hasPlus pos = false) :
    (tbl.lookup lemma_ = none →
      (store_in tbl word lemma_ pos ann).lookup word = some { pos := pos }) ∧
    (tbl.lookup lemma_ ≠ none → store_in tbl word lemma_ pos ann = tbl) := by
  constructor
  · intro h
    unfold store_in
    rw [h]
    simp only [hplus, Bool.false_eq_true, if_false]
    rw [if_neg hpos]
    exact lookup_dictInsert_self tbl word { pos := pos }
  · intro h
    obtain ⟨e, he⟩ := Option.ne_none_iff_exists'.mp h
    unfold store_in
    rw [he]
    simp only []
    rw [if_neg hpos]

/-- Witness for the amended C5 at a concrete input: storing `"w"`/`"κ"`
with POS `"ADP"` in the empty table creates the surface-form entry. -/
theorem store_in_non_inflected_cases_witness :
    (store_in [] "w" "κ" "ADP" "_").lookup "w" = some { pos := "ADP" } :=
  (store_in_non_inflected_cases [] "w" "κ" "ADP" "_" (by decide) (by decide)).1 rfl

/-- C6: when a lemma is present as a bare entry with no inflection map
and a later record for that lemma carries a POS of the `INFLECTED` set,
`store_in` overwrites the entry with the fresh inflected entry
`{pos, inflections: {word: annotations}}`, discarding all prior data
(last-write-wins). -/
theorem store_in_overwrites_bare_entry (tbl : Table) (word lemma_ pos ann : String)
    (e : Entry) (hpos : pos ∈ INFLECTED) (hl : tbl.lookup lemma_ = some e)
    (hb : e.inflections = none) :
    (store_in tbl word lemma_ pos ann).lookup lemma_ =
      some { pos := pos, inflections := some [(word, pySplit '|' ann)] } := by
  unfold store_in
  rw [hl]
  simp only []
  rw [if_pos hpos, hb]
  exact lookup_dictInsert_self tbl lemma_ _

/-- Witness for C6 at a concrete input: the bare `"λ" ↦ {pos: ADV}` entry
is replaced by a fresh NOUN entry holding only the new inflection. -/
theorem store_in_overwrites_bare_entry_witness :
    (store_in [("λ", { pos := "ADV" })] "w" "λ" "NOUN" "a|b").lookup "λ" =
      some { pos := "NOUN", inflections := some [("w", pySplit '|' "a|b")] } :=
  store_in_overwrites_bare_entry [("λ", { pos := "ADV" })] "w" "λ" "NOUN" "a|b"
    { pos := "ADV" } (by decide) rfl rfl

/-- Counterexample to C3 as stated: a corpus line whose morphological
feature string contains the ignore marker `Foreign=Yes` among several
pipe-joined features is NOT excluded by `from_conllu` — the code tests
whole tab-fields for equality with the markers, never substrings. -/
theorem from_conllu_keeps_pipe_joined_marker :
    "Foreign=Yes" ∈ pySplit '|' "Foreign=Yes|Number=Sing" ∧
    includeLine "1\tκαι\tκαι\tNOUN\tNOUN\tForeign=Yes|Number=Sing\t4\tnsubj\t_\t_\n" ≠
      none := by
  exact ⟨by decide, by decide⟩

/-- C3 (amended): a corpus line is excluded by the Normalizer
(`from_conllu`) when one of its tab-fields after the first EQUALS an
ignore marker exactly (so a feature string that is exactly one marker,
but not a pipe-joined combination containing one), or when its surface
form (the first field after the initial split) contains a digit. -/
theorem from_conllu_excludes_marker_field_or_digit (line p0 rest : String)
    (hsplit : pySplitN '\t' 1 line = [p0, rest])
    (hbad : (∃ f ∈ pySplit '\t' rest, f ∈ TO_IGNORE) ∨
            hasDigit ((pySplit '\t' rest).headD "") = true) :
    includeLine line = none := by
  have hcond : ((pySplit '\t' rest).any (fun n => decide (n ∈ TO_IGNORE)) ||
      hasDigit ((pySplit '\t' rest).headD "")) = true := by
    rcases hbad with ⟨f, hf, hmem⟩ | hd
    · exact (Bool.or_eq_true _ _).mpr (Or.inl (List.any_eq_true.mpr ⟨f, hf, by simpa using hmem⟩))
    · exact (Bool.or_eq_true _ _).mpr (Or.inr hd)
  unfold includeLine
  by_cases hc : pyStartsWith line "#" = true
  · rw [if_pos hc]
  · rw [if_neg hc, hsplit]
    simp only [hcond, if_true]

/-- Witness for the amended C3 at a concrete input: a real foreign-word
line (feature field exactly `Foreign=Yes`, POS field exactly `X`) is
excluded. -/
theorem from_conllu_excludes_marker_field_or_digit_witness :
    includeLine "1\tΜάντσεστερ\tΜάντσεστερ\tX\tX\tForeign=Yes\t4\tnsubj\t_\t_\n" = none :=
  from_conllu_excludes_marker_field_or_digit
    "1\tΜάντσεστερ\tΜάντσεστερ\tX\tX\tForeign=Yes\t4\tnsubj\t_\t_\n"
    "1" "Μάντσεστερ\tΜάντσεστερ\tX\tX\tForeign=Yes\t4\tnsubj\t_\t_\n"
    (by decide) (Or.inl ⟨"X", by decide, by decide⟩)

/-- Counterexample to C4 as stated: lemma `"αβ"` with the single recorded
form `"γδ"` takes the suffix-fallback branch (common prefix empty, one
form), the normalized lemma ends in no `LEMMA_SUFFIXES` entry, yet
`get_stem` returns the empty common prefix, not the normalized lemma
`"αβ"`. -/
theorem get_stem_fallback_not_lemma :
    (commonPrefixAll [remove_tonos "αβ", remove_tonos "γδ"]).length < 4 ∧
    (∀ suf ∈ LEMMA_SUFFIXES, pyEndsWith (remove_tonos "αβ") suf = false) ∧
    get_stem "αβ" ["γδ"] ≠ remove_tonos "αβ" := by
  exact ⟨by decide, by decide, by decide⟩

/-- C4 (amended): when the suffix-fallback branch of `get_stem` is taken
(common normalized prefix shorter than 4 characters, or fewer than 2
recorded forms) and the normalized lemma ends in none of the
`LEMMA_SUFFIXES` patterns, `get_stem` returns the previously computed
longest common prefix of the normalized lemma and normalized forms
unchanged (which equals the normalized lemma only when that prefix does). -/
theorem get_stem_fallback_keeps_common_prefix (lemma_ : String) (words : List String)
    (hfb : (commonPrefixAll (remove_tonos lemma_ :: words.map remove_tonos)).length < 4 ∨
           words.length < 2)
    (hns : ∀ suf ∈ LEMMA_SUFFIXES, pyEndsWith (remove_tonos lemma_) suf = false) :
    get_stem lemma_ words =
      commonPrefixAll (remove_tonos lemma_ :: words.map remove_tonos) := by
  have hfind : LEMMA_SUFFIXES.find? (fun suf => pyEndsWith (remove_tonos lemma_) suf) = none :=
    List.find?_eq_none.mpr (fun suf hs => by simp [hns suf hs])
  have hcond : (decide ((commonPrefixAll
      (remove_tonos lemma_ :: words.map remove_tonos)).length < 4) ||
      decide (words.length < 2)) = true := by
    rcases hfb with h | h
    · exact (Bool.or_eq_true _ _).mpr (Or.inl (decide_eq_true h))
    · exact (Bool.or_eq_true _ _).mpr (Or.inr (decide_eq_true h))
  unfold get_stem
  simp only [hcond, if_true, hfind]

/-- Witness for the amended C4 at a concrete input: for lemma `"αβ"` and
forms `["γδ"]`, the result is the (empty) common prefix. -/
theorem get_stem_fallback_keeps_common_prefix_witness :
    get_stem "αβ" ["γδ"] = commonPrefixAll (remove_tonos "αβ" :: ["γδ"].map remove_tonos) :=
  get_stem_fallback_keeps_common_prefix "αβ" ["γδ"] (Or.inr (by decide)) (by decide)

/-- Counterexample to C7 as stated: with the next two lines present,
non-blank, both splitting into at least 5 tab-fields with features
different from `"_"`, but the second one carrying SIX fields,
`update_contraction` raises `ValueError` (the source guards only
`len(info) < 5` and then unpacks exactly 5 values), instead of returning
the combined `("P1+P2", "f1|f2")`. -/
theorem update_contraction_valueerror_on_six_fields :
    (pySplit '\t' (pyStrip "a\tb\tP1\td\tf1")).length = 5 ∧
    5 ≤ (pySplit '\t' (pyStrip "a\tb\tP2\td\tf2\textra")).length ∧
    update_contraction ["x", "a\tb\tP1\td\tf1", "a\tb\tP2\td\tf2\textra"] 0 = none := by
  exact ⟨by decide, by decide, rfl⟩

/-- C7 (amended): for a record at index `i` whose lemma field is `"_"`,
when the next two lines exist, are non-blank and split into EXACTLY 5
tab-fields with POS values `P1`, `P2` and feature strings `f1`, `f2`
both different from `"_"`, contraction resolution returns the combined
POS `P1 + "+" + P2` and feature string `f1 + "|" + f2`, and `update`
stores them for the current surface form. -/
theorem update_contraction_joins_next_two_lines
    (lines : List String) (i : Nat) (l1 l2 w1 a1 P1 b1 f1 w2 a2 P2 b2 f2 : String)
    (tbl : Table) (word pos0 x0 ann0 : String)
    (h1 : lines.get? (i + 1) = some l1) (h2 : lines.get? (i + 2) = some l2)
    (hn1 : pyStrip l1 ≠ "") (hn2 : pyStrip l2 ≠ "")
    (hs1 : pySplit '\t' (pyStrip l1) = [w1, a1, P1, b1, f1])
    (hs2 : pySplit '\t' (pyStrip l2) = [w2, a2, P2, b2, f2])
    (hf1 : f1 ≠ "_") (hf2 : f2 ≠ "_") :
    update_contraction lines i = some (P1 ++ "+" ++ P2, f1 ++ "|" ++ f2) ∧
    update tbl [word, "_", pos0, x0, ann0] lines i =
      some (store_in tbl word "_" (P1 ++ "+" ++ P2) (f1 ++ "|" ++ f2)) := by
  have hb1 : ¬ i ≥ lines.length := by
    have hlt := List.get?_eq_some.mp h1
    obtain ⟨hlt1, -⟩ := hlt
    omega
  have hb2 : ¬ i + 1 ≥ lines.length := by
    have hlt := List.get?_eq_some.mp h2
    obtain ⟨hlt2, -⟩ := hlt
    omega
  have huc : update_contraction lines i = some (P1 ++ "+" ++ P2, f1 ++ "|" ++ f2) := by
    unfold update_contraction ucLoop
    rw [if_neg hb1, h1]
    simp only []
    rw [if_neg hn1, hs1]
    simp only [List.length_cons, List.length_nil]
    rw [if_neg (by omega)]
    unfold ucLoop
    rw [if_neg hb2, h2]
    simp only []
    rw [if_neg hn2, hs2]
    simp only [List.length_cons, List.length_nil]
    rw [if_neg (by omega)]
    unfold ucLoop
    rw [if_pos hf1, if_pos hf2]
    simp [pyJoin]
  refine ⟨huc, ?_⟩
  unfold update
  simp only []
  rw [if_pos (Or.inl trivial), huc]

/-- Witness for the amended C7 at a concrete input: the contraction line
`στο _ _ _ _` followed by an ADP line and a DET line resolves to POS
`ADP+DET` with the two feature strings pipe-joined, and `update` stores
the result for the surface form. -/
theorem update_contraction_joins_next_two_lines_witness :
    update_contraction
      ["στο\t_\t_\t_\t_", "σ\tσε\tADP\tADP\tA1", "το\tο\tDET\tDET\tA2"] 0 =
      some ("ADP" ++ "+" ++ "DET", "A1" ++ "|" ++ "A2") ∧
    update [] ["στο", "_", "_", "_", "_"]
      ["στο\t_\t_\t_\t_", "σ\tσε\tADP\tADP\tA1", "το\tο\tDET\tDET\tA2"] 0 =
      some (store_in [] "στο" "_" ("ADP" ++ "+" ++ "DET") ("A1" ++ "|" ++ "A2")) :=
  update_contraction_joins_next_two_lines
    ["στο\t_\t_\t_\t_", "σ\tσε\tADP\tADP\tA1", "το\tο\tDET\tDET\tA2"] 0
    "σ\tσε\tADP\tADP\tA1" "το\tο\tDET\tDET\tA2"
    "σ" "σε" "ADP" "ADP" "A1" "το" "ο" "DET" "DET" "A2"
    [] "στο" "_" "_" "_"
    (by decide) (by decide) (by decide) (by decide) (by decide) (by decide)
    (by decide) (by decide)

/-- C8: for a lemma with at least 2 recorded surface forms, when the
longest common prefix of the diacritic-stripped lowercased lemma and all
diacritic-stripped lowercased forms has length at least 4, the computed
stem is exactly that longest common normalized prefix. -/
theorem get_stem_long_prefix_is_common_prefix (lemma_ : String) (words : List String)
    (hw : 2 ≤ words.length)
    (hp : 4 ≤ (commonPrefixAll (remove_tonos lemma_ :: words.map remove_tonos)).length) :
    get_stem lemma_ words =
      commonPrefixAll (remove_tonos lemma_ :: words.map remove_tonos) := by
  have hcond : (decide ((commonPrefixAll
      (remove_tonos lemma_ :: words.map remove_tonos)).length < 4) ||
      decide (words.length < 2)) = false := by
    rw [Bool.or_eq_false_iff]
    exact ⟨decide_eq_false (by omega), decide_eq_false (by omega)⟩
  unfold get_stem
  simp only [hcond, Bool.false_eq_true, if_false]

/-- Witness for C8 at a concrete input: `άνθρωπος` with the two forms
`άνθρωποι`, `ανθρώπους` has the 7-character normalized common prefix
`ανθρωπο`, which is the computed stem. -/
theorem get_stem_long_prefix_is_common_prefix_witness :
    get_stem "άνθρωπος" ["άνθρωποι", "ανθρώπους"] =
      commonPrefixAll (remove_tonos "άνθρωπος" :: ["άνθρωποι", "ανθρώπους"].map remove_tonos) :=
  get_stem_long_prefix_is_common_prefix "άνθρωπος" ["άνθρωποι", "ανθρώπους"]
    (by decide) (by decide)

/-- C9: `get_class` is deterministic first-match-wins over the ordered
class list of the POS: every NOUN lemma ending in `ος` is assigned the
first matching class `masc-ος`, and `analyze_inflections` emits exactly
the tag `noun-masc-ος` for it, never a later class. -/
theorem get_class_noun_os_first_match (lemma_ : String) (words : List String)
    (h : pyEndsWith lemma_ "ος" = true) :
    get_class lemma_ "NOUN" = .ok (some "masc-ος") ∧
    analyze_inflections lemma_ words "NOUN" = .ok (get_stem lemma_ words, "noun-masc-ος") := by
  have hc : get_class lemma_ "NOUN" = .ok (some "masc-ος") := by
    unfold get_class
    have : CLASSES.lookup "NOUN" = some NOUN_CLASSES := by rfl
    rw [this]
    unfold NOUN_CLASSES firstClassMatch
    simp [h]
  refine ⟨hc, ?_⟩
  unfold analyze_inflections
  rw [hc]
  rfl

/-- Witness for C9 at a concrete input: the NOUN lemma `ανθρωπος` is
tagged `masc-ος` and the emitted class tag is `noun-masc-ος`. -/
theorem get_class_noun_os_first_match_witness :
    get_class "ανθρωπος" "NOUN" = .ok (some "masc-ος") ∧
    analyze_inflections "ανθρωπος" ["ανθρωποι"] "NOUN" =
      .ok (get_stem "ανθρωπος" ["ανθρωποι"], "noun-masc-ος") :=
  get_class_noun_os_first_match "ανθρωπος" ["ανθρωποι"] (by decide)

end MorphoSyntax
